import Mathlib

/-!
Verification development for the SB-Masters promotion pipeline.

The definitions below are shallow embeddings of the Python sources:
  * `commands/getroles.py`   — the `/promote` command: requirement checks,
    mastery-to-rank resolution, discord-only queue posting, auto-mc bridge
    dispatch, `_trim`, `_send_with_log`, `safe_queue_send`.
  * `views/promotion_view.py` — the persistent approval view: the
    `IGN`/`Target Rank` regular-expression parsers and the `approve` /
    `reject` button handlers.
  * `events/on_members_join.py` — the globally throttled DM sender
    `_safe_dm` and the `on_member_join` fallback path.

Modelling conventions: message text is `List Char`; Python numbers (ints and
floats alike, as loaded from JSON) are `ℚ`, except counts and identifiers
which are `ℤ`/`ℕ`; fallible effects are `Except`/`Option`; the event-loop
clock is a `ℚ` timestamp threaded through explicit state.
-/

namespace SBM

/-! ### Python string primitives (`str.strip`, `str.lower`, `_trim`) -/

/-- Python whitespace class: the characters matched by `\s` (ASCII) and
stripped by `str.strip()`. -/
def isPySpace (c : Char) : Bool :=
  c = ' ' || c = '\t' || c = '\n' || c = '\r' || c = '\x0b' || c = '\x0c'

/-- `str.strip()` on a character list: drop whitespace from both ends. -/
def pyStrip (s : List Char) : List Char :=
  ((s.dropWhile isPySpace).reverse.dropWhile isPySpace).reverse

/-- `str.lower()` on a character list (ASCII case fold). -/
def pyLower (s : List Char) : List Char :=
  s.map Char.toLower

/-- `_trim` from `commands/getroles.py`:
`s if len(s) <= limit else s[:limit - 1] + "…"`. -/
def pyTrim (s : List Char) (limit : Nat) : List Char :=
  if s.length ≤ limit then s else s.take (limit - 1) ++ ['…']

/-- `MAX_CONTENT` from `commands/getroles.py`. -/
def MAX_CONTENT : Nat := 2000

/-! ### Stats record and requirement set (`/promote` step 1 and 2)

Fields mirror the keys read from `stats[...]` and `reqs[...]` in
`commands/getroles.py`.  Numeric JSON values are modelled as `ℚ`; the
mastery count (`stats["masteries"]`) is an integer. -/

structure Stats where
  networth : ℚ
  sb_level : ℚ
  skill_avg : ℚ
  slayer_xp : ℚ
  cata_lvl : ℚ
  rift_all_charms : Bool
  farm_weight : ℚ
  masteries : ℤ
deriving Repr, DecidableEq

structure Requirements where
  networth : ℚ
  sb_level : ℚ
  skill_avg : ℚ
  slayer_xp : ℚ
  cata_lvl : ℚ
  rift_charms : String
  farm_weight : ℚ
deriving Repr, DecidableEq

/-- Step 2 of `promote` in `commands/getroles.py`: the `failed` list built by
seven sequential conditional appends.  The thousands-separator formatting
(`:,`) of the Python f-strings is rendered by plain `toString`; the label
texts and the order of appends are those of the source. -/
def failedChecks (stats : Stats) (reqs : Requirements) : List String :=
  (if stats.networth < reqs.networth then
    ["Networth < " ++ toString reqs.networth] else []) ++
  (if stats.sb_level < reqs.sb_level then
    ["SB Level < " ++ toString reqs.sb_level] else []) ++
  (if stats.skill_avg < reqs.skill_avg then
    ["Skill Avg < " ++ toString reqs.skill_avg] else []) ++
  (if stats.slayer_xp < reqs.slayer_xp then
    ["Slayer XP < " ++ toString reqs.slayer_xp] else []) ++
  (if stats.cata_lvl < reqs.cata_lvl then
    ["Cata Lvl < " ++ toString reqs.cata_lvl] else []) ++
  (if reqs.rift_charms = "all" ∧ stats.rift_all_charms = false then
    ["Rift charms incomplete"] else []) ++
  (if stats.farm_weight < reqs.farm_weight then
    ["Farm Weight < " ++ toString reqs.farm_weight] else [])

/-- Step 3 of `promote`: `for threshold, rank in sorted(rank_thresholds.items(),
reverse=True): if mastery_count >= threshold: role_name = rank; break`.
`sorted(..., reverse=True)` on a dict with distinct integer keys is a
descending sort by key (the concrete sorting algorithm is irrelevant on
distinct keys; a structurally recursive sort is used so the definition
evaluates); the loop is a first-match search on that order. -/
def resolveRoleName (table : List (ℤ × String)) (mastery : ℤ) : Option String :=
  ((List.insertionSort (fun a b => b.1 ≤ a.1) table).find?
    (fun p => decide (p.1 ≤ mastery))).map Prod.snd

/-- The decision contract of `RankResolver.evaluate` (spec §4.1), realised by
the control flow of `promote`. -/
inductive Decision where
  | Rejected (reasons : List String)
  | NoRankMapping
  | Accepted (rankName : String)
deriving Repr, DecidableEq

/-- The decision portion of `promote` (steps 2 and 3 of
`commands/getroles.py`): a non-empty `failed` list returns the rejection; the
threshold loop then runs, and `if not role_name:` — Python truthiness, so both
`None` and the empty string — returns "No rank mapping found". -/
def evaluate (stats : Stats) (reqs : Requirements)
    (table : List (ℤ × String)) : Decision :=
  let failed := failedChecks stats reqs
  if failed ≠ [] then .Rejected failed
  else
    match resolveRoleName table stats.masteries with
    | none => .NoRankMapping
    | some name => if name = "" then .NoRankMapping else .Accepted name

/-- Specification-side list of the seven checks in their fixed source order:
each entry pairs the failure condition with the reason string appended on
failure.  Used to state that `failedChecks` reports exactly the failing
checks and no others. -/
def checkList (stats : Stats) (reqs : Requirements) : List (Bool × String) :=
  [ (decide (stats.networth < reqs.networth),
      "Networth < " ++ toString reqs.networth),
    (decide (stats.sb_level < reqs.sb_level),
      "SB Level < " ++ toString reqs.sb_level),
    (decide (stats.skill_avg < reqs.skill_avg),
      "Skill Avg < " ++ toString reqs.skill_avg),
    (decide (stats.slayer_xp < reqs.slayer_xp),
      "Slayer XP < " ++ toString reqs.slayer_xp),
    (decide (stats.cata_lvl < reqs.cata_lvl),
      "Cata Lvl < " ++ toString reqs.cata_lvl),
    (decide (reqs.rift_charms = "all" ∧ stats.rift_all_charms = false),
      "Rift charms incomplete"),
    (decide (stats.farm_weight < reqs.farm_weight),
      "Farm Weight < " ++ toString reqs.farm_weight) ]

/-! ### Helper lemmas for the rank resolver -/

theorem cond_filter_step (c : Prop) [Decidable c] (s : String)
    (tl : List (Bool × String)) :
    (if c then [s] else []) ++ (tl.filter Prod.fst).map Prod.snd
      = (((decide c, s) :: tl).filter Prod.fst).map Prod.snd := by
  by_cases h : c <;> simp [h]

theorem failedChecks_eq_filter (stats : Stats) (reqs : Requirements) :
    failedChecks stats reqs
      = ((checkList stats reqs).filter Prod.fst).map Prod.snd := by
  rw [checkList, ← cond_filter_step, ← cond_filter_step, ← cond_filter_step,
    ← cond_filter_step, ← cond_filter_step, ← cond_filter_step,
    ← cond_filter_step]
  simp [failedChecks]

theorem find_desc_spec (m : ℤ) (l : List (ℤ × String))
    (hs : l.Pairwise (fun a b => b.1 ≤ a.1)) :
    (l.find? (fun p => decide (p.1 ≤ m)) = none → ∀ p ∈ l, m < p.1) ∧
    (∀ r, l.find? (fun p => decide (p.1 ≤ m)) = some r →
      r ∈ l ∧ r.1 ≤ m ∧ ∀ q ∈ l, q.1 ≤ m → q.1 ≤ r.1) := by
  induction l with
  | nil => simp
  | cons a t ih =>
    have ha : ∀ b ∈ t, b.1 ≤ a.1 := fun b hb => List.rel_of_pairwise_cons hs hb
    have ht := (List.pairwise_cons.mp hs).2
    by_cases hm : a.1 ≤ m
    · rw [List.find?_cons_of_pos _ (by simpa using hm)]
      constructor
      · intro h
        simp at h
      intro r hr
      obtain rfl : a = r := by simpa using hr
      refine ⟨List.mem_cons_self _ _, hm, fun q hq hqm => ?_⟩
      rcases List.mem_cons.mp hq with rfl | hq
      · exact le_refl _
      · exact ha q hq
    · rw [List.find?_cons_of_neg _ (by simpa using hm)]
      push_neg at hm
      refine ⟨fun h p hp => ?_, fun r hr => ?_⟩
      · rcases List.mem_cons.mp hp with rfl | hp
        · exact hm
        · exact (ih ht).1 h p hp
      · obtain ⟨hrmem, hrm, hmax⟩ := (ih ht).2 r hr
        refine ⟨List.mem_cons_of_mem _ hrmem, hrm, fun q hq hqm => ?_⟩
        rcases List.mem_cons.mp hq with rfl | hq
        · exact absurd hqm (not_le.mpr hm)
        · exact hmax q hq hqm

theorem resolve_spec (table : List (ℤ × String)) (m : ℤ)
    (hnodup : (table.map Prod.fst).Nodup) :
    ((∀ p ∈ table, m < p.1) → resolveRoleName table m = none) ∧
    (∀ p ∈ table, p.1 ≤ m → (∀ q ∈ table, q.1 ≤ m → q.1 ≤ p.1) →
      resolveRoleName table m = some p.2) := by
  haveI : IsTotal (ℤ × String) (fun a b => b.1 ≤ a.1) :=
    ⟨fun a b => le_total b.1 a.1⟩
  haveI : IsTrans (ℤ × String) (fun a b => b.1 ≤ a.1) :=
    ⟨fun _ _ _ hab hbc => le_trans hbc hab⟩
  set L := List.insertionSort (fun a b : ℤ × String => b.1 ≤ a.1) table with hL
  have hperm : L.Perm table := List.perm_insertionSort _ table
  have hsorted : L.Pairwise (fun a b : ℤ × String => b.1 ≤ a.1) :=
    List.sorted_insertionSort _ table
  have hspec := find_desc_spec m L hsorted
  constructor
  · intro hall
    have : L.find? (fun p => decide (p.1 ≤ m)) = none := by
      rw [List.find?_eq_none]
      intro x hx
      simpa using not_le.mpr (hall x (hperm.mem_iff.mp hx))
    simp [resolveRoleName, ← hL, this]
  · intro p hp hpm hpmax
    have hsome : (L.find? (fun p => decide (p.1 ≤ m))).isSome := by
      rw [List.find?_isSome]
      exact ⟨p, hperm.mem_iff.mpr hp, by simpa using hpm⟩
    obtain ⟨r, hr⟩ := Option.isSome_iff_exists.mp hsome
    obtain ⟨hrmem, hrm, hrmax⟩ := hspec.2 r hr
    have hrtab : r ∈ table := hperm.mem_iff.mp hrmem
    have h1 : r.1 ≤ p.1 := hpmax r hrtab hrm
    have h2 : p.1 ≤ r.1 := hrmax p (hperm.mem_iff.mpr hp) hpm
    have : r = p := List.inj_on_of_nodup_map hnodup hrtab hp (le_antisymm h1 h2)
    subst this
    simp [resolveRoleName, ← hL, hr]

/-! ### Claims C1 and C2 -/

/-- C1: for every stats record and requirement set in which at least one
requirement is not met, the promotion evaluation returns a rejection listing
exactly the failing checks and no others, with every check evaluated and the
failure reasons in the fixed source order (networth, skyblock level, skill
average, slayer XP, catacombs level, rift charms — checked only when the
requirement equals "all" —, farm weight).  The exact-and-ordered content is
expressed by equality with the filtered specification list `checkList`. -/
theorem c1_rejection_lists_exactly_failing_checks
    (stats : Stats) (reqs : Requirements) (table : List (ℤ × String))
    (h : ∃ c ∈ checkList stats reqs, c.1 = true) :
    evaluate stats reqs table = .Rejected (failedChecks stats reqs) ∧
    failedChecks stats reqs
      = ((checkList stats reqs).filter Prod.fst).map Prod.snd := by
  have heq := failedChecks_eq_filter stats reqs
  have hne : failedChecks stats reqs ≠ [] := by
    obtain ⟨c, hc, hct⟩ := h
    rw [heq]
    exact List.ne_nil_of_mem
      (List.mem_map_of_mem _ (List.mem_filter.mpr ⟨hc, hct⟩))
  exact ⟨by simp [evaluate, hne], heq⟩

/-- Sample inputs for the C1 witness: networth and catacombs level fail, all
other requirements pass. -/
def statsC1 : Stats :=
  { networth := 5, sb_level := 100, skill_avg := 40, slayer_xp := 1000
    cata_lvl := 20, rift_all_charms := true, farm_weight := 500
    masteries := 75 }

def reqsC1 : Requirements :=
  { networth := 10, sb_level := 100, skill_avg := 40, slayer_xp := 1000
    cata_lvl := 30, rift_charms := "all", farm_weight := 500 }

/-- Witness for C1 at a concrete record failing the networth and catacombs
checks. -/
theorem c1_witness :
    evaluate statsC1 reqsC1 [] = .Rejected (failedChecks statsC1 reqsC1) ∧
    failedChecks statsC1 reqsC1
      = ((checkList statsC1 reqsC1).filter Prod.fst).map Prod.snd :=
  c1_rejection_lists_exactly_failing_checks statsC1 reqsC1 []
    ⟨(true, "Networth < " ++ toString reqsC1.networth), by decide⟩

/-- Sample inputs for C2: a record passing every requirement, with a mastery
count of 75. -/
def statsC2 : Stats :=
  { networth := 0, sb_level := 0, skill_avg := 0, slayer_xp := 0
    cata_lvl := 0, rift_all_charms := true, farm_weight := 0
    masteries := 75 }

def reqsC2 : Requirements :=
  { networth := 0, sb_level := 0, skill_avg := 0, slayer_xp := 0
    cata_lvl := 0, rift_charms := "none", farm_weight := 0 }

/-- Counterexample to C2 as stated: the record passes all requirements and the
table maps threshold 0 — the highest threshold ≤ the mastery count 75 — to the
rank named "", yet the code answers `NoRankMapping` instead of accepting that
rank, because `if not role_name:` in `commands/getroles.py` treats the empty
string like `None` (Python truthiness). -/
theorem c2_counterexample_empty_rank_name :
    failedChecks statsC2 reqsC2 = [] ∧
    (0 : ℤ) ≤ statsC2.masteries ∧
    evaluate statsC2 reqsC2 [(0, "")] = .NoRankMapping ∧
    evaluate statsC2 reqsC2 [(0, "")] ≠ .Accepted "" := by
  refine ⟨by decide, by decide, by decide, by decide⟩

/-- C2 (amended): for every stats record passing all requirements and every
mastery-rank table with distinct integer thresholds, rank resolution yields
the rank mapped to the highest threshold ≤ the player's mastery count,
provided that rank name is non-empty; and if the mastery count is strictly
below every threshold the outcome is `NoRankMapping`, distinct from a
requirements rejection.  (The non-emptiness proviso is forced by the Python
truthiness of `if not role_name:`; see the counterexample.) -/
theorem c2_rank_selection_amended
    (stats : Stats) (reqs : Requirements) (table : List (ℤ × String))
    (hpass : failedChecks stats reqs = [])
    (hnodup : (table.map Prod.fst).Nodup) :
    ((∀ p ∈ table, stats.masteries < p.1) →
      evaluate stats reqs table = .NoRankMapping) ∧
    (∀ p ∈ table, p.1 ≤ stats.masteries → p.2 ≠ "" →
      (∀ q ∈ table, q.1 ≤ stats.masteries → q.1 ≤ p.1) →
      evaluate stats reqs table = .Accepted p.2) := by
  have hspec := resolve_spec table stats.masteries hnodup
  constructor
  · intro hall
    simp [evaluate, hpass, hspec.1 hall]
  · intro p hp hpm hpne hpmax
    simp [evaluate, hpass, hspec.2 p hp hpm hpmax, hpne]

/-- Witness for C2 on the specification's own example: thresholds
`{0: Member, 50: Elite, 200: Legend}` with mastery count 75 resolve to
"Elite". -/
theorem c2_witness :
    evaluate statsC2 reqsC2 [(0, "Member"), (50, "Elite"), (200, "Legend")]
      = .Accepted "Elite" :=
  (c2_rank_selection_amended statsC2 reqsC2 _ (by decide) (by decide)).2
    (50, "Elite") (by decide) (by decide) (by decide) (by decide)

/-! ### The approval-card wire format (`views/promotion_view.py`)

`IGN_PATTERN = re.compile(r"IGN:\s*\*\*(.+?)\*\*", re.IGNORECASE)` and
`RANK_PATTERN = re.compile(r"Target Rank:\s*\*\*(.+?)\*\*", re.IGNORECASE)`
are embedded as executable matchers with Python `re.search` semantics
(leftmost start position wins; the greedy `\s*` is deterministic here
because the following literal `*` is never whitespace; `(.+?)` is
non-greedy and `.` does not match a newline). -/

/-- Case-insensitive literal-prefix test: the label part of the pattern
under `re.IGNORECASE` (ASCII case folding). -/
def ciStarts : List Char → List Char → Bool
  | [], _ => true
  | _ :: _, [] => false
  | a :: as, b :: bs => (a.toLower = b.toLower) && ciStarts as bs

/-- The non-greedy `(.+?)\*\*` tail of both patterns: consume at least one
non-newline character, stopping at the earliest following `**`.  `acc`
holds the consumed characters in reverse. -/
def captureBody : List Char → List Char → Option (List Char)
  | _, [] => none
  | acc, c :: rest =>
    if acc ≠ [] ∧ (c :: rest).take 2 = ['*', '*'] then some acc.reverse
    else if c = '\n' then none
    else captureBody (c :: acc) rest

/-- One attempt of `LABEL\s*\*\*(.+?)\*\*` at a fixed start position. -/
def matchAt (label s : List Char) : Option (List Char) :=
  if ciStarts label s then
    match (s.drop label.length).dropWhile isPySpace with
    | '*' :: '*' :: tail => captureBody [] tail
    | _ => none
  else none

/-- `re.search`: try every start position from the left, first match wins. -/
def reSearch (label : List Char) : List Char → Option (List Char)
  | [] => none
  | c :: rest =>
    match matchAt label (c :: rest) with
    | some g => some g
    | none => reSearch label rest

def IGN_LABEL : List Char := "IGN:".data

def RANK_LABEL : List Char := "Target Rank:".data

/-- `IGN_PATTERN.search(desc)` followed by `.group(1).strip()` as in the
`approve`/`reject` handlers. -/
def parseIgn (desc : List Char) : Option (List Char) :=
  (reSearch IGN_LABEL desc).map pyStrip

/-- `RANK_PATTERN.search(desc)` followed by `.group(1).strip()`. -/
def parseRank (desc : List Char) : Option (List Char) :=
  (reSearch RANK_LABEL desc).map pyStrip

/-- The card description built in `promote` (discord-only branch):
`_trim(f"IGN: **{username}**\nTarget Rank: **{role_name}**", 4096)`. -/
def renderDesc (username roleName : List Char) : List Char :=
  pyTrim ("IGN: **".data ++ username ++ "**\nTarget Rank: **".data
    ++ roleName ++ "**".data) 4096

/-- A markdown-clean field for the round-trip: non-empty, containing no `*`
and no newline, with no leading or trailing whitespace (checked through the
first character and the first character of the reversal). -/
def cleanField (s : List Char) : Bool :=
  !s.isEmpty && s.all (fun c => !(c = '*' || c = '\n'))
    && !(isPySpace s.headI) && !(isPySpace s.reverse.headI)

/-! ### Parser lemmas -/

theorem ciStarts_self_append (l t : List Char) : ciStarts l (l ++ t) = true := by
  induction l with
  | nil => simp [ciStarts]
  | cons a as ih => simp [ciStarts, ih]

theorem captureBody_clean (g : List Char) :
    ∀ (acc t : List Char), (∀ c ∈ g, c ≠ '*' ∧ c ≠ '\n') →
    (acc ≠ [] ∨ g ≠ []) →
    captureBody acc (g ++ '*' :: '*' :: t) = some (acc.reverse ++ g) := by
  induction g with
  | nil =>
    intro acc t _ hne
    have hacc : acc ≠ [] := by
      rcases hne with h | h
      · exact h
      · exact absurd rfl h
    simp [captureBody, hacc]
  | cons c g' ih =>
    intro acc t hg hne
    have hc : c ≠ '*' ∧ c ≠ '\n' := hg c (List.mem_cons_self _ _)
    have hstop : ¬(acc ≠ [] ∧ (c :: (g' ++ '*' :: '*' :: t)).take 2 = ['*', '*']) := by
      rintro ⟨-, htake⟩
      rcases g' with _ | ⟨d, g''⟩ <;> simp_all
    rw [List.cons_append, captureBody, if_neg hstop, if_neg hc.2,
      ih (c :: acc) t (fun d hd => hg d (List.mem_cons_of_mem _ hd)) (Or.inl (by simp))]
    simp

theorem pyStrip_clean (s : List Char) (h : cleanField s = true) : pyStrip s = s := by
  have hne : s ≠ [] := by
    simp [cleanField] at h
    rcases s with _ | _ <;> simp_all
  obtain ⟨c, cs, rfl⟩ := List.exists_cons_of_ne_nil hne
  simp only [cleanField, Bool.and_eq_true, Bool.not_eq_true', List.isEmpty_cons] at h
  have hhead : isPySpace c = false := by simpa using h.1.2
  have hlast : isPySpace ((c :: cs).reverse.headI) = false := h.2
  have h1 : (c :: cs).dropWhile isPySpace = c :: cs := by
    simp [List.dropWhile_cons, hhead]
  rw [pyStrip, h1]
  obtain ⟨d, ds, hd⟩ := List.exists_cons_of_ne_nil
    (by simp : (c :: cs).reverse ≠ [])
  have hdns : isPySpace d = false := by
    rw [hd] at hlast
    simpa using hlast
  rw [hd, List.dropWhile_cons, if_neg (by simp [hdns]), ← hd, List.reverse_reverse]

theorem matchAt_render (label g t : List Char)
    (hg : ∀ c ∈ g, c ≠ '*' ∧ c ≠ '\n') (hne : g ≠ []) :
    matchAt label (label ++ ' ' :: '*' :: '*' :: (g ++ '*' :: '*' :: t))
      = some g := by
  rw [matchAt, if_pos (ciStarts_self_append _ _), List.drop_left]
  have h1 : (' ' :: '*' :: '*' :: (g ++ '*' :: '*' :: t)).dropWhile isPySpace
      = '*' :: '*' :: (g ++ '*' :: '*' :: t) := by
    simp [List.dropWhile_cons, isPySpace]
  rw [h1]
  simpa using captureBody_clean g [] t hg (Or.inr hne)

theorem reSearch_pos (label s : List Char) (g : List Char)
    (hne : s ≠ []) (h : matchAt label s = some g) :
    reSearch label s = some g := by
  obtain ⟨c, cs, rfl⟩ := List.exists_cons_of_ne_nil hne
  rw [reSearch, h]

theorem reSearch_skip (label tr : List Char) (pre : List Char)
    (h : ∀ q, q <:+ pre → q ≠ [] → matchAt label (q ++ tr) = none) :
    reSearch label (pre ++ tr) = reSearch label tr := by
  induction pre with
  | nil => simp
  | cons c cs ih =>
    have h1 : matchAt label ((c :: cs) ++ tr) = none :=
      h (c :: cs) (List.suffix_refl _) (by simp)
    rw [List.cons_append, reSearch, ← List.cons_append, h1]
    exact ih (fun q hq hqne => h q (hq.trans (List.suffix_cons c cs)) hqne)

theorem suffix_append_cases {q X Y : List Char} (h : q <:+ X ++ Y) :
    q <:+ Y ∨ ∃ x, x <:+ X ∧ x ≠ [] ∧ q = x ++ Y := by
  obtain ⟨p, hp⟩ := h
  rcases List.append_eq_append_iff.mp hp with ⟨a', hX, hq⟩ | ⟨c', _, hY⟩
  · rcases eq_or_ne a' [] with rfl | hne
    · left
      simpa using hq.symm ▸ List.suffix_refl Y
    · right
      exact ⟨a', ⟨p, hX.symm⟩, hne, hq⟩
  · left
    exact ⟨c', hY.symm⟩

theorem ciStarts_head_ne (a b : Char) (as bs : List Char)
    (h : a.toLower ≠ b.toLower) : ciStarts (a :: as) (b :: bs) = false := by
  simp [ciStarts, h]

theorem matchAt_none_head (a b : Char) (as bs : List Char)
    (h : a.toLower ≠ b.toLower) : matchAt (a :: as) (b :: bs) = none := by
  rw [matchAt, if_neg]
  simp [ciStarts_head_ne a b as bs h]

theorem ciStarts_split (x : List Char) :
    ∀ (label y : List Char), ciStarts label (x ++ y) = true →
    label.length ≤ x.length ∨
      (label.drop x.length ≠ [] ∧ ciStarts (label.drop x.length) y = true) := by
  induction x with
  | nil =>
    intro label y h
    rcases label with _ | ⟨l, ls⟩
    · left
      simp
    · right
      exact ⟨by simp, by simpa using h⟩
  | cons a as ih =>
    intro label y h
    rcases label with _ | ⟨l, ls⟩
    · left
      simp
    · rw [List.cons_append] at h
      simp only [ciStarts, Bool.and_eq_true] at h
      rcases ih ls y h.2 with h3 | h3
      · left
        simpa [Nat.succ_le_succ_iff] using h3
      · right
        simpa using h3

theorem reverse_headI_suffix (u q : List Char) (hsuf : q <:+ u) (hne : q ≠ []) :
    q.reverse.headI = u.reverse.headI := by
  obtain ⟨p, rfl⟩ := hsuf
  rw [List.reverse_append]
  obtain ⟨d, ds, hd⟩ := List.exists_cons_of_ne_nil
    (show q.reverse ≠ [] by simpa)
  rw [hd, List.cons_append]
  simp

theorem rank_label_no_star : ∀ c ∈ RANK_LABEL, c.toLower ≠ '*' := by decide

theorem matchAt_rank_none_within (u u' tr : List Char)
    (hu : ∀ c ∈ u, c ≠ '*' ∧ c ≠ '\n')
    (hlast : isPySpace u.reverse.headI = false)
    (hsuf : u' <:+ u) :
    matchAt RANK_LABEL (u' ++ '*' :: '*' :: '\n' :: tr) = none := by
  by_cases hci : ciStarts RANK_LABEL (u' ++ '*' :: '*' :: '\n' :: tr) = true
  case neg =>
    rw [matchAt, if_neg hci]
  case pos =>
    rcases ciStarts_split u' RANK_LABEL _ hci with hlen | ⟨hd, hrest⟩
    case inr =>
      obtain ⟨m, ms, hm⟩ := List.exists_cons_of_ne_nil hd
      rw [hm] at hrest
      simp only [ciStarts, Bool.and_eq_true, decide_eq_true_eq] at hrest
      have hmem : m ∈ RANK_LABEL := by
        have h1 : m ∈ RANK_LABEL.drop u'.length := by
          rw [hm]
          exact List.mem_cons_self _ _
        exact (List.drop_suffix _ _).subset h1
      exact absurd (by simpa using hrest.1) (rank_label_no_star m hmem)
    case inl =>
      rw [matchAt, if_pos hci, List.drop_append_eq_append_drop,
        Nat.sub_eq_zero_of_le hlen, List.drop_zero]
      set u'' := u'.drop RANK_LABEL.length with hu''def
      have hsuf'' : u'' <:+ u := (List.drop_suffix _ _).trans hsuf
      by_cases hnil : u'' = []
      · rw [hnil, List.nil_append, List.dropWhile_cons,
          if_neg (by simp [isPySpace])]
        simp [captureBody]
      · have hwne : u''.dropWhile isPySpace ≠ [] := by
          intro hempty
          have hall := List.dropWhile_eq_nil_iff.mp hempty
          obtain ⟨d, ds, hd2⟩ := List.exists_cons_of_ne_nil
            (show u''.reverse ≠ [] by simpa)
          have hdmem : d ∈ u'' := by
            have : d ∈ u''.reverse := by
              rw [hd2]
              exact List.mem_cons_self _ _
            simpa using this
          have hdlast : u''.reverse.headI = u.reverse.headI :=
            reverse_headI_suffix u u'' hsuf'' hnil
          have hdeq : u''.reverse.headI = d := by
            rw [hd2]
            rfl
          rw [hdeq] at hdlast
          rw [← hdlast] at hlast
          rw [hall d hdmem] at hlast
          exact absurd hlast (by simp)
        rw [List.dropWhile_append,
          if_neg (by simpa [List.isEmpty_iff] using hwne)]
        obtain ⟨w0, ws, hwd⟩ := List.exists_cons_of_ne_nil hwne
        have hw0mem : w0 ∈ u'' := by
          have : w0 ∈ u''.dropWhile isPySpace := by
            rw [hwd]
            exact List.mem_cons_self _ _
          exact (List.dropWhile_suffix isPySpace).subset this
        have hw0star : w0 ≠ '*' := (hu w0 (hsuf''.subset hw0mem)).1
        rw [hwd, List.cons_append]
        split
        · next tail heq =>
          injection heq with h1 _
          exact absurd h1 hw0star
        · rfl

theorem rank_head_none (b : Char) (bs : List Char) (h : b.toLower ≠ 't') :
    matchAt RANK_LABEL (b :: bs) = none := by
  have he : RANK_LABEL = 'T' :: "arget Rank:".data := rfl
  rw [he]
  refine matchAt_none_head 'T' b _ _ ?_
  rw [show 'T'.toLower = 't' from by decide]
  exact fun hx => h hx.symm

theorem rank_no_match_in_pre (u tr : List Char)
    (hu : ∀ c ∈ u, c ≠ '*' ∧ c ≠ '\n')
    (hlast : isPySpace u.reverse.headI = false) :
    ∀ q, q <:+ ("IGN: **".data ++ (u ++ ['*', '*', '\n'])) → q ≠ [] →
      matchAt RANK_LABEL (q ++ tr) = none := by
  intro q hq hqne
  rcases suffix_append_cases hq with hq1 | ⟨x, hx, hxne, rfl⟩
  · rcases suffix_append_cases hq1 with hq2 | ⟨u', hu', hu'ne, rfl⟩
    · simp only [List.suffix_cons_iff, List.suffix_nil] at hq2
      rcases hq2 with rfl | rfl | rfl | rfl
      · simp only [List.cons_append, List.nil_append]
        exact rank_head_none '*' _ (by decide)
      · simp only [List.cons_append, List.nil_append]
        exact rank_head_none '*' _ (by decide)
      · simp only [List.cons_append, List.nil_append]
        exact rank_head_none '\n' _ (by decide)
      · exact absurd rfl hqne
    · have heq : (u' ++ ['*', '*', '\n']) ++ tr = u' ++ '*' :: '*' :: '\n' :: tr := by
        simp
      rw [heq]
      exact matchAt_rank_none_within u u' tr hu hlast hu'
  · have hA : ("IGN: **".data : List Char) = ['I', 'G', 'N', ':', ' ', '*', '*'] := rfl
    rw [hA] at hx
    simp only [List.suffix_cons_iff, List.suffix_nil] at hx
    rcases hx with rfl | rfl | rfl | rfl | rfl | rfl | rfl | rfl
    · simp only [List.cons_append, List.nil_append, List.append_assoc]
      exact rank_head_none 'I' _ (by decide)
    · simp only [List.cons_append, List.nil_append, List.append_assoc]
      exact rank_head_none 'G' _ (by decide)
    · simp only [List.cons_append, List.nil_append, List.append_assoc]
      exact rank_head_none 'N' _ (by decide)
    · simp only [List.cons_append, List.nil_append, List.append_assoc]
      exact rank_head_none ':' _ (by decide)
    · simp only [List.cons_append, List.nil_append, List.append_assoc]
      exact rank_head_none ' ' _ (by decide)
    · simp only [List.cons_append, List.nil_append, List.append_assoc]
      exact rank_head_none '*' _ (by decide)
    · simp only [List.cons_append, List.nil_append, List.append_assoc]
      exact rank_head_none '*' _ (by decide)
    · exact absurd rfl hxne

theorem cleanField_spec (s : List Char) (h : cleanField s = true) :
    s ≠ [] ∧ (∀ c ∈ s, c ≠ '*' ∧ c ≠ '\n') ∧
      isPySpace s.headI = false ∧ isPySpace s.reverse.headI = false := by
  simp only [cleanField, Bool.and_eq_true, Bool.not_eq_true',
    List.all_eq_true] at h
  obtain ⟨⟨⟨hne, hall⟩, hhd⟩, hlast⟩ := h
  refine ⟨?_, ?_, hhd, hlast⟩
  · intro h0
    rw [h0] at hne
    simp at hne
  · intro c hc
    have hx := hall c hc
    constructor <;> intro heq <;> simp [heq] at hx

/-! ### Claims C4 -/

/-- Counterexample to C4 as stated: the handle " x " contains no
markdown-breaking characters, yet rendering and parsing it yields "x" — the
`.strip()` applied by the approval view removes the surrounding whitespace,
so the round-trip is not the identity on such handles. -/
theorem c4_counterexample_whitespace_handle :
    parseIgn (renderDesc " x ".data "Elite".data) = some "x".data ∧
    some "x".data ≠ some " x ".data := by
  constructor
  · decide
  · decide

/-- C4 (amended): for every handle and rank name that is non-empty, contains
no `*` and no newline, has no leading or trailing whitespace, and renders
within the 4096-character description trim, rendering the promotion request
into the card description and parsing it back with the approval view's IGN
and Target Rank patterns yields exactly the original handle and rank name.
(The no-leading/trailing-whitespace, non-emptiness and length provisos are
forced by `.strip()`, the `(.+?)` one-character minimum and `_trim`; see the
counterexample.) -/
theorem c4_roundtrip_amended (u r : List Char)
    (hu : cleanField u = true) (hr : cleanField r = true)
    (hlen : ("IGN: **".data ++ u ++ "**\nTarget Rank: **".data
      ++ r ++ "**".data).length ≤ 4096) :
    parseIgn (renderDesc u r) = some u ∧ parseRank (renderDesc u r) = some r := by
  obtain ⟨hune, huall, huh, hul⟩ := cleanField_spec u hu
  obtain ⟨hrne, hrall, hrh, hrl⟩ := cleanField_spec r hr
  have hrender : renderDesc u r
      = "IGN: **".data ++ u ++ "**\nTarget Rank: **".data ++ r ++ "**".data := by
    rw [renderDesc, pyTrim, if_pos hlen]
  have e1 : ("IGN: **".data : List Char) = IGN_LABEL ++ [' ', '*', '*'] := rfl
  have e2 : ("**\nTarget Rank: **".data : List Char)
      = ['*', '*', '\n'] ++ (RANK_LABEL ++ [' ', '*', '*']) := rfl
  have e3 : ("**".data : List Char) = ['*', '*'] := rfl
  constructor
  · have hform : renderDesc u r
        = IGN_LABEL ++ ' ' :: '*' :: '*' ::
            (u ++ '*' :: '*' ::
              ('\n' :: (RANK_LABEL ++ ' ' :: '*' :: '*' ::
                (r ++ '*' :: '*' :: [])))) := by
      rw [hrender, e1, e2, e3]
      simp [List.append_assoc]
    rw [hform, parseIgn,
      reSearch_pos IGN_LABEL _ u
        (List.append_ne_nil_of_left_ne_nil (by decide) _)
        (matchAt_render IGN_LABEL u _ huall hune)]
    simp [pyStrip_clean u hu]
  · have hform2 : renderDesc u r
        = ("IGN: **".data ++ (u ++ ['*', '*', '\n'])) ++
            (RANK_LABEL ++ ' ' :: '*' :: '*' :: (r ++ '*' :: '*' :: [])) := by
      rw [hrender, e2, e3]
      simp [List.append_assoc]
    rw [hform2, parseRank,
      reSearch_skip RANK_LABEL _ _ (rank_no_match_in_pre u _ huall hul),
      reSearch_pos RANK_LABEL _ r
        (List.append_ne_nil_of_left_ne_nil (by decide) _)
        (matchAt_render RANK_LABEL r [] hrall hrne)]
    simp [pyStrip_clean r hr]

/-- Witness for C4 at a concrete clean handle and rank name. -/
theorem c4_witness :
    parseIgn (renderDesc "Steve".data "Elite".data) = some "Steve".data ∧
    parseRank (renderDesc "Steve".data "Elite".data) = some "Elite".data :=
  c4_roundtrip_amended "Steve".data "Elite".data (by decide) (by decide) (by decide)

/-! ### Queue posting (`safe_queue_send` in `commands/getroles.py`)

Messages carry raw content, an optional embed (whose description is itself
optional, mirroring `embed.description or ""`), and the platform-computed
list of users mentioned in the content.  Mentions render as `<@id>` and the
platform extracts them from content only — embeds never produce mentions. -/

/-- A user mention as rendered in message content (`who.mention`). -/
def mentionChars (uid : ℕ) : List Char :=
  "<@".data ++ (toString uid).data ++ ">".data

def takeDigits : List Char → List Char × List Char
  | [] => ([], [])
  | c :: rest =>
    if c.isDigit then
      let p := takeDigits rest
      (c :: p.1, p.2)
    else ([], c :: rest)

def digitsVal (ds : List Char) : ℕ :=
  ds.foldl (fun n c => 10 * n + (c.toNat - 48)) 0

/-- Scan message content for `<@digits>` user mentions, as the platform does
when it populates a message's mention list.  Fuel-bounded by the content
length; every step consumes at least one character. -/
def scanMentionsAux : ℕ → List Char → List ℕ
  | 0, _ => []
  | _ + 1, [] => []
  | fuel + 1, '<' :: '@' :: rest =>
    (match takeDigits rest with
     | (d :: ds, '>' :: r2) => digitsVal (d :: ds) :: scanMentionsAux fuel r2
     | _ => scanMentionsAux fuel rest)
  | fuel + 1, _ :: rest => scanMentionsAux fuel rest

def scanMentions (s : List Char) : List ℕ :=
  scanMentionsAux s.length s

structure QMsg where
  content : List Char
  embed : Option (Option (List Char))
  mentions : List ℕ
deriving Repr, DecidableEq

/-- `safe_queue_send`: the card message produced by each path.  The primary
attempt posts `content=""` with the embed and view; on failure the fallback
posts the plain-text note `f"{who.mention} Promotion request created
(embed/view trimmed)."` with no embed; if both fail, no card exists.  The
tiny follow-up ping (`queue.send(content=who.mention)`) is a separate
message, not part of the returned card.  The `allowed_mentions` argument
only gates ping delivery; it adds no mention to the content. -/
def safeQueueSend (embedSendOk fallbackSendOk : Bool) (who : ℕ)
    (desc : List Char) : Option QMsg :=
  if embedSendOk then
    some { content := [], embed := some (some desc), mentions := scanMentions [] }
  else if fallbackSendOk then
    let note := pyTrim (mentionChars who
      ++ " Promotion request created (embed/view trimmed).".data) MAX_CONTENT
    some { content := note, embed := none, mentions := scanMentions note }
  else none

/-- Sample description shared by the card-related claims. -/
def sampleDesc : List Char := renderDesc "Steve".data "Elite".data

/-- C3 (code bug): the card posted by the primary path of `safe_queue_send`
has empty content and therefore zero platform mentions — the requester
mention is sent as a separate follow-up message — while the fallback card
carries the mention but no embed, hence no labeled IGN / Target Rank
fields.  So no successful post carries the labeled fields together with
exactly one mention, and the approval view (which reads `msg.mentions` of
the card message itself) cannot reconstruct the target identity. -/
theorem c3_card_missing_reconstruction_data :
    safeQueueSend true true 42 sampleDesc
      = some { content := [], embed := some (some sampleDesc), mentions := [] } ∧
    (∀ uid : ℕ, ¬ (mentionChars uid <:+: ([] : List Char))) ∧
    (parseIgn sampleDesc).isSome = true ∧
    (parseRank sampleDesc).isSome = true ∧
    (safeQueueSend false true 42 sampleDesc).map (fun m => (m.embed, m.mentions))
      = some (none, [42]) := by
  refine ⟨rfl, ?_, by decide, by decide, by rfl⟩
  intro uid h
  rw [List.infix_nil, mentionChars] at h
  simp at h

/-! ### The approval view state machine (`views/promotion_view.py`)

The `approve` and `reject` button handlers are embedded as functions from an
interaction context to an `Except`: a `.error` value is an exception
propagating out of the handler (only the bare `await log_ch.send(...)`
calls can raise here; interaction responses are modelled as the returned
response value).  Role comparison follows discord.py: by position, ties on
id; role membership and lookup compare ids / names as the source does. -/

structure Perms where
  manage_roles : Bool
  administrator : Bool
deriving Repr, DecidableEq

structure Role where
  id : ℕ
  name : List Char
  position : ℤ
deriving Repr, DecidableEq

def roleLt (a b : Role) : Bool :=
  a.position < b.position || (a.position = b.position && a.id < b.id)

/-- `role >= me.top_role` in the source. -/
def roleGe (a b : Role) : Bool := !(roleLt a b)

structure HttpErr where
  status : ℕ
  code : ℕ
  text : List Char
deriving Repr, DecidableEq

/-- An exception as observable in these handlers: a discord `HTTPException`
(the only class `_send_with_log` catches) or anything else. -/
inductive PyErr where
  | http (e : HttpErr)
  | other (msg : List Char)
deriving Repr, DecidableEq

structure BotMember where
  perms : Perms
  topRole : Role
deriving Repr, DecidableEq

structure ApproveCtx where
  reviewerPerms : Perms
  msg : Option QMsg
  guildRoles : List Role
  bot : Option BotMember
  targetRoles : List Role
  canEditMember : Bool
  logCh : Bool
  logSend : Except PyErr Unit

inductive ApproveResp where
  | needManageRoles
  | noEmbed
  | missingFields
  | noMention
  | roleNotFound (name : List Char)
  | botNeedsManageRoles
  | hierarchyTooHigh
  | cannotEditMember
  | approved (ign roleName : List Char) (target : ℕ)
deriving Repr, DecidableEq

structure ApproveOut where
  resp : ApproveResp
  rolesAfter : List Role
  addRolesCalled : Bool
  logsPosted : ℕ
deriving Repr, DecidableEq

/-- Tail of `approve` after the role grant: the audit-log post (a bare
`await log_ch.send(...)` — a failure there propagates) and the reviewer
acknowledgement. -/
def approveFinish (c : ApproveCtx) (ign roleName : List Char) (target : ℕ)
    (rolesAfter : List Role) (called : Bool) : Except PyErr ApproveOut :=
  if c.logCh then
    match c.logSend with
    | .ok _ => .ok ⟨.approved ign roleName target, rolesAfter, called, 1⟩
    | .error e => .error e
  else
    .ok ⟨.approved ign roleName target, rolesAfter, called, 0⟩

/-- The `approve` button handler, in source order: permission gate, embed
presence, IGN/rank parsing, mention lookup, role lookup by name, bot
permission and hierarchy checks, idempotent role grant (`if role not in
target_member.roles`, `Forbidden` caught), audit log, acknowledgement. -/
def approve (c : ApproveCtx) : Except PyErr ApproveOut :=
  if ¬(c.reviewerPerms.manage_roles || c.reviewerPerms.administrator) then
    .ok ⟨.needManageRoles, c.targetRoles, false, 0⟩
  else
    match c.msg with
    | none => .ok ⟨.noEmbed, c.targetRoles, false, 0⟩
    | some m =>
      match m.embed with
      | none => .ok ⟨.noEmbed, c.targetRoles, false, 0⟩
      | some d =>
        let desc := d.getD []
        match parseIgn desc, parseRank desc with
        | some ign, some roleName =>
          (match m.mentions with
          | [] => .ok ⟨.noMention, c.targetRoles, false, 0⟩
          | target :: _ =>
            match c.guildRoles.find? (fun r => r.name = roleName) with
            | none => .ok ⟨.roleNotFound roleName, c.targetRoles, false, 0⟩
            | some role =>
              match c.bot with
              | none => .ok ⟨.botNeedsManageRoles, c.targetRoles, false, 0⟩
              | some me =>
                if ¬me.perms.manage_roles then
                  .ok ⟨.botNeedsManageRoles, c.targetRoles, false, 0⟩
                else if roleGe role me.topRole then
                  .ok ⟨.hierarchyTooHigh, c.targetRoles, false, 0⟩
                else if c.targetRoles.any (fun r => r.id = role.id) then
                  approveFinish c ign roleName target c.targetRoles false
                else if ¬c.canEditMember then
                  .ok ⟨.cannotEditMember, c.targetRoles, true, 0⟩
                else
                  approveFinish c ign roleName target (c.targetRoles ++ [role]) true)
        | _, _ => .ok ⟨.missingFields, c.targetRoles, false, 0⟩

structure RejectCtx where
  reviewerPerms : Perms
  msg : Option QMsg
  targetRoles : List Role
  logCh : Bool
  logSend : Except PyErr Unit

inductive RejectResp where
  | needManageRoles
  | rejected (ign roleName : Option (List Char))
deriving Repr, DecidableEq

structure RejectOut where
  resp : RejectResp
  rolesAfter : List Role
  logsPosted : ℕ
deriving Repr, DecidableEq

/-- The `reject` button handler: permission gate, best-effort parse of
IGN/rank (None on failure), bare audit-log post, acknowledgement; role
state is never touched. -/
def reject (c : RejectCtx) : Except PyErr RejectOut :=
  if ¬(c.reviewerPerms.manage_roles || c.reviewerPerms.administrator) then
    .ok ⟨.needManageRoles, c.targetRoles, 0⟩
  else
    let desc : Option (List Char) :=
      match c.msg with
      | some m =>
        match m.embed with
        | some d => some (d.getD [])
        | none => none
      | none => none
    let ign := desc.bind parseIgn
    let roleName := desc.bind parseRank
    if c.logCh then
      match c.logSend with
      | .ok _ => .ok ⟨.rejected ign roleName, c.targetRoles, 1⟩
      | .error e => .error e
    else
      .ok ⟨.rejected ign roleName, c.targetRoles, 0⟩

/-! ### Claims C5, C9, C7 -/

/-- C5: for every reviewer lacking both the role-management capability and
administrator permission, invoking either the approve or the reject action
results in the permission-error response with zero state mutation: no role
grant call, unchanged role state, no audit log entry, and no exception. -/
theorem c5_unauthorized_reviewer_no_mutation
    (ca : ApproveCtx) (cr : RejectCtx)
    (ha : ca.reviewerPerms.manage_roles = false ∧
      ca.reviewerPerms.administrator = false)
    (hr : cr.reviewerPerms.manage_roles = false ∧
      cr.reviewerPerms.administrator = false) :
    approve ca = .ok ⟨.needManageRoles, ca.targetRoles, false, 0⟩ ∧
    reject cr = .ok ⟨.needManageRoles, cr.targetRoles, 0⟩ := by
  constructor
  · rw [approve, if_pos (by simp [ha.1, ha.2])]
  · rw [reject, if_pos (by simp [hr.1, hr.2])]

/-- Witness context for C5: a reviewer with neither capability on a pending
card. -/
def ctxC5a : ApproveCtx :=
  { reviewerPerms := { manage_roles := false, administrator := false }
    msg := some { content := [], embed := some (some sampleDesc), mentions := [42] }
    guildRoles := [{ id := 1, name := "Elite".data, position := 5 }]
    bot := some { perms := { manage_roles := true, administrator := true }
                  topRole := { id := 2, name := "Bot".data, position := 10 } }
    targetRoles := [{ id := 3, name := "Member".data, position := 1 }]
    canEditMember := true
    logCh := true
    logSend := .ok () }

def ctxC5r : RejectCtx :=
  { reviewerPerms := { manage_roles := false, administrator := false }
    msg := some { content := [], embed := some (some sampleDesc), mentions := [42] }
    targetRoles := [{ id := 3, name := "Member".data, position := 1 }]
    logCh := true
    logSend := .ok () }

/-- Witness for C5 at a concrete unauthorized reviewer. -/
theorem c5_witness :
    approve ctxC5a = .ok ⟨.needManageRoles, ctxC5a.targetRoles, false, 0⟩ ∧
    reject ctxC5r = .ok ⟨.needManageRoles, ctxC5r.targetRoles, 0⟩ :=
  c5_unauthorized_reviewer_no_mutation ctxC5a ctxC5r ⟨rfl, rfl⟩ ⟨rfl, rfl⟩

/-- C9: approving a request whose target member already holds the target
role reaches the grant step, makes no role-grant call (the `if role not in
target_member.roles` guard), leaves the role state unchanged, completes
with the approved acknowledgement, and raises nothing (given the audit-log
send itself succeeds, which is orthogonal to idempotence). -/
theorem c9_second_approval_noop
    (c : ApproveCtx) (m : QMsg) (d : Option (List Char))
    (ign roleName : List Char) (target : ℕ) (rest : List ℕ)
    (role : Role) (me : BotMember)
    (hperm : c.reviewerPerms.manage_roles = true ∨
      c.reviewerPerms.administrator = true)
    (hmsg : c.msg = some m) (hembed : m.embed = some d)
    (hign : parseIgn (d.getD []) = some ign)
    (hrank : parseRank (d.getD []) = some roleName)
    (hment : m.mentions = target :: rest)
    (hrole : c.guildRoles.find? (fun r => r.name = roleName) = some role)
    (hbot : c.bot = some me) (hbp : me.perms.manage_roles = true)
    (hh : roleGe role me.topRole = false)
    (hheld : c.targetRoles.any (fun r => r.id = role.id) = true)
    (hlog : c.logSend = .ok ()) :
    approve c = .ok ⟨.approved ign roleName target, c.targetRoles, false,
      if c.logCh then 1 else 0⟩ := by
  rcases hperm with h | h <;>
    cases hc : c.logCh <;>
      simp [approve, approveFinish, hmsg, hembed, hign, hrank, hment, hrole,
        hbot, hbp, hh, hheld, hlog, h, hc]

/-- Witness context for C9: the target member already holds "Elite". -/
def ctxC9 : ApproveCtx :=
  { reviewerPerms := { manage_roles := true, administrator := false }
    msg := some { content := [], embed := some (some sampleDesc), mentions := [42] }
    guildRoles := [{ id := 1, name := "Elite".data, position := 5 }]
    bot := some { perms := { manage_roles := true, administrator := true }
                  topRole := { id := 2, name := "Bot".data, position := 10 } }
    targetRoles := [{ id := 1, name := "Elite".data, position := 5 }]
    canEditMember := false
    logCh := true
    logSend := .ok () }

/-- Witness for C9: the already-held role is not granted again, state is
unchanged and the handler completes even though editing the member would
fail (`canEditMember = false` — no call is made). -/
theorem c9_witness :
    approve ctxC9 = .ok ⟨.approved "Steve".data "Elite".data 42,
      ctxC9.targetRoles, false, 1⟩ := by
  have h := c9_second_approval_noop ctxC9
    { content := [], embed := some (some sampleDesc), mentions := [42] }
    (some sampleDesc) "Steve".data "Elite".data 42 []
    { id := 1, name := "Elite".data, position := 5 }
    { perms := { manage_roles := true, administrator := true }
      topRole := { id := 2, name := "Bot".data, position := 10 } }
    (Or.inl rfl) rfl rfl (by decide) (by decide) rfl (by decide) rfl rfl
    (by decide) (by decide) rfl
  simpa using h

/-! ### `_send_with_log` (`commands/getroles.py`) and claim C7 -/

/-- The diagnostic line `_send_with_log` posts on an HTTP failure:
`_trim(f"⚠ {op} failed — HTTP {status} / code {code}:\n{text}", MAX_CONTENT)`. -/
def renderHttpLog (op : List Char) (e : HttpErr) : List Char :=
  pyTrim ("⚠ ".data ++ op ++ " failed — HTTP ".data ++ (toString e.status).data
    ++ " / code ".data ++ (toString e.code).data ++ ":\n".data ++ e.text)
    MAX_CONTENT

/-- `_send_with_log(op, coro, log_ch)`: run the call; catch only
`HTTPException`, post a diagnostic to the log channel when configured, and
return `None`.  Any other exception — and a failure of the diagnostic post
itself — propagates. -/
def sendWithLog {α : Type} (res : Except PyErr α) (logCh : Bool)
    (op : List Char) (logSend : Except PyErr Unit) :
    Except PyErr (Option α × List (List Char)) :=
  match res with
  | .ok a => .ok (some a, [])
  | .error (.http e) =>
    if logCh then
      match logSend with
      | .ok _ => .ok (none, [renderHttpLog op e])
      | .error e2 => .error e2
    else .ok (none, [])
  | .error (.other msg) => .error (.other msg)

/-- Context for the C7 counterexample: an authorized reviewer approves a
well-formed card, the role grant succeeds, but the audit-log post fails
with an HTTP error. -/
def ctxC7 : ApproveCtx :=
  { reviewerPerms := { manage_roles := true, administrator := false }
    msg := some { content := [], embed := some (some sampleDesc), mentions := [42] }
    guildRoles := [{ id := 1, name := "Elite".data, position := 5 }]
    bot := some { perms := { manage_roles := true, administrator := true }
                  topRole := { id := 2, name := "Bot".data, position := 10 } }
    targetRoles := []
    canEditMember := true
    logCh := true
    logSend := .error (.http { status := 500, code := 130000, text := "err".data }) }

/-- Counterexample to C7 as stated: the approval view's audit-log post is a
bare `await log_ch.send(...)` with no wrapping, so its failure propagates
out of the `approve` handler as an exception. -/
theorem c7_counterexample_approve_log_raises :
    approve ctxC7
      = .error (.http { status := 500, code := 130000, text := "err".data }) := by
  rfl

/-- The shape shared by every direct audit-log post in the promotion and
approval flows — `if log_ch: await log_ch.send(...)` with no wrapping: the
"Promotion Queued" post and the two auto-mc posts (bridge outcome,
mirror-failure) in `promote` (`commands/getroles.py`), and the log posts in
the view's `approve` and `reject` handlers (`views/promotion_view.py`; the
`approve` one is also exercised concretely by the counterexample).  Returns
the number of lines posted; a failing send propagates. -/
def bareLogSend (logCh : Bool) (logSend : Except PyErr Unit) :
    Except PyErr ℕ :=
  if logCh then
    match logSend with
    | .ok _ => .ok 1
    | .error err => .error err
  else .ok 0

/-- C7 (amended): failures are swallowed only for the sends wrapped by
`_send_with_log` — the three queue posts of `safe_queue_send` — where an
HTTP failure of the wrapped call yields `None` after the diagnostic log
line is posted (when a log channel is configured) and a success passes
through.  Everything else propagates: a non-HTTP exception of the wrapped
call, a failure of the diagnostic post itself, and every direct audit-log
post in the promotion and approval flows (the promote command's queued,
auto-mc outcome and mirror-failure posts and the approval view's posts,
all bare `if log_ch: await log_ch.send(...)` sends) raises out of the
handler on failure. -/
theorem c7_only_wrapped_sends_swallow {α : Type} (a : α) (e : HttpErr)
    (err : PyErr) (op msg : List Char) (logCh : Bool) (ls : Except PyErr Unit) :
    sendWithLog (Except.error (PyErr.http e) : Except PyErr α) logCh op (.ok ())
      = .ok (none, if logCh then [renderHttpLog op e] else []) ∧
    sendWithLog (Except.ok a) logCh op ls = .ok (some a, []) ∧
    sendWithLog (Except.error (PyErr.other msg) : Except PyErr α) logCh op ls
      = .error (.other msg) ∧
    sendWithLog (Except.error (PyErr.http e) : Except PyErr α) true op
      (.error err) = .error err ∧
    bareLogSend true (.error err) = .error err ∧
    bareLogSend logCh (.ok ()) = .ok (if logCh then 1 else 0) := by
  cases logCh <;> simp [sendWithLog, bareLogSend]

/-! ### Bridge dispatch (`promote`, auto-mc branch) and claim C6 -/

/-- Observable outcome of the single `session.post(bridge_url, ...)` call:
an HTTP response with status and body, or any raised exception (network
failure, `asyncio` timeout, ...) whose text becomes the body. -/
inductive BridgeResp where
  | http (status : ℕ) (body : List Char)
  | exc (msg : List Char)
deriving Repr, DecidableEq

/-- `ok = (200 <= resp.status < 300)`; an exception leaves `ok = False`. -/
def bridgeOk : BridgeResp → Bool
  | .http st _ => decide (200 ≤ st ∧ st < 300)
  | .exc _ => false

def bridgeBody : BridgeResp → List Char
  | .http _ b => b
  | .exc m => m

/-- The user-facing failure message:
`_trim(f"⚠ Auto-MC bridge error.\n'''text\n{body[:1500]}\n'''", MAX_CONTENT)`
(code fence quoted here). -/
def bridgeErrMsg (body : List Char) : List Char :=
  pyTrim ("⚠ Auto-MC bridge error.\n```text\n".data
    ++ (body.take 1500 ++ "\n```".data)) MAX_CONTENT

/-- The audit line logged for every dispatch (body truncated at 1800). -/
def autoLogLine (ok : Bool) (username roleName body : List Char)
    (requester : ℕ) : List Char :=
  pyTrim ((if ok then "🤖 **Auto-MC Promote**".data
      else "⚠ **Auto-MC Promote FAILED**".data)
    ++ " — IGN **".data ++ username ++ "** → **".data ++ roleName
    ++ "** • requested by ".data ++ mentionChars requester
    ++ "\nBridge response: `".data
    ++ (if 1800 < body.length then body.take 1800 ++ ['…'] else body)
    ++ "`".data) MAX_CONTENT

/-- The audit line for a failed best-effort role mirror (`Forbidden`). -/
def roleMirrorFailLog (roleName : List Char) (target : ℕ) : List Char :=
  pyTrim ("⚠ Could not assign Discord role **".data ++ roleName ++ "** to ".data
    ++ mentionChars target ++ " (insufficient permissions).".data) MAX_CONTENT

structure AutoCtx where
  bridgeUrl : Option (List Char)
  oracle : ℕ → BridgeResp
  requester : ℕ
  logCh : Bool
  targetRole : Option Role
  targetMember : Option (ℕ × List Role)
  canEdit : Bool

inductive AutoResp where
  | noBridgeUrl
  | bridgeError (shown : List Char)
  | success (username roleName : List Char)
deriving Repr, DecidableEq

structure AutoOut where
  resp : AutoResp
  ok : Bool
  memberAfter : Option (ℕ × List Role)
  addRolesCalled : Bool
  logs : List (List Char)
deriving Repr, DecidableEq

/-- The auto-mc branch of `promote`: missing bridge URL check, one bridge
POST (the code consumes exactly the first oracle value — there is no
retry), uniform failure handling with the truncated body surfaced and an
early return before any role mirroring, then best-effort role mirroring
with `Forbidden` logged but not escalating. -/
def autoMc (c : AutoCtx) (username roleName : List Char) : AutoOut :=
  match c.bridgeUrl with
  | none => ⟨.noBridgeUrl, false, c.targetMember, false, []⟩
  | some _ =>
    let r := c.oracle 0
    let ok := bridgeOk r
    let body := bridgeBody r
    let logs := if c.logCh
      then [autoLogLine ok username roleName body c.requester] else []
    if ok = false then
      ⟨.bridgeError (bridgeErrMsg body), false, c.targetMember, false, logs⟩
    else
      match c.targetRole, c.targetMember with
      | some role, some tm =>
        if c.canEdit then
          ⟨.success username roleName, true, some (tm.1, tm.2 ++ [role]),
            true, logs⟩
        else
          ⟨.success username roleName, true, some tm, true,
            logs ++ (if c.logCh then [roleMirrorFailLog roleName tm.1] else [])⟩
      | _, _ => ⟨.success username roleName, true, c.targetMember, false, logs⟩

/-- C6: in auto-mc mode a non-2xx response, network failure or timeout
yields `ok = false`, the response body (truncated to 1500 characters) is
surfaced inside the user-facing error, no role mirroring is attempted (role
state untouched, no grant call), and no retry happens — the outcome depends
only on the first bridge response. -/
theorem c6_bridge_failure_surfaced_no_mirroring
    (c : AutoCtx) (username roleName : List Char)
    (hurl : c.bridgeUrl.isSome = true)
    (hfail : bridgeOk (c.oracle 0) = false) :
    (autoMc c username roleName).ok = false ∧
    (autoMc c username roleName).resp
      = .bridgeError (bridgeErrMsg (bridgeBody (c.oracle 0))) ∧
    ((bridgeBody (c.oracle 0)).take 1500)
      <:+: bridgeErrMsg (bridgeBody (c.oracle 0)) ∧
    (autoMc c username roleName).memberAfter = c.targetMember ∧
    (autoMc c username roleName).addRolesCalled = false ∧
    (∀ g : ℕ → BridgeResp, g 0 = c.oracle 0 →
      autoMc { c with oracle := g } username roleName
        = autoMc c username roleName) := by
  obtain ⟨url, hu⟩ := Option.isSome_iff_exists.mp hurl
  have hmsg : bridgeErrMsg (bridgeBody (c.oracle 0))
      = "⚠ Auto-MC bridge error.\n```text\n".data
        ++ ((bridgeBody (c.oracle 0)).take 1500 ++ "\n```".data) := by
    rw [bridgeErrMsg, pyTrim, if_pos]
    have h1 : ((bridgeBody (c.oracle 0)).take 1500).length ≤ 1500 :=
      List.length_take_le _ _
    have h2 : ("⚠ Auto-MC bridge error.\n```text\n".data).length = 32 := by decide
    have h3 : ("\n```".data : List Char).length = 4 := by decide
    simp only [List.length_append, h2, h3, MAX_CONTENT]
    omega
  refine ⟨?_, ?_, ?_, ?_, ?_, ?_⟩
  · simp [autoMc, hu, hfail]
  · simp [autoMc, hu, hfail]
  · exact ⟨"⚠ Auto-MC bridge error.\n```text\n".data, "\n```".data,
      by rw [hmsg, List.append_assoc]⟩
  · simp [autoMc, hu, hfail]
  · simp [autoMc, hu, hfail]
  · intro g hg
    simp [autoMc, hu, hg]

/-- Witness context for C6: the bridge answers HTTP 500. -/
def ctxC6 : AutoCtx :=
  { bridgeUrl := some "https://bridge.example/promote".data
    oracle := fun _ => .http 500 "Internal Server Error".data
    requester := 7
    logCh := true
    targetRole := some { id := 1, name := "Elite".data, position := 5 }
    targetMember := some (42, [{ id := 3, name := "Member".data, position := 1 }])
    canEdit := true }

/-- Witness for C6 at a concrete failing dispatch. -/
theorem c6_witness :
    (autoMc ctxC6 "Steve".data "Elite".data).ok = false ∧
    (autoMc ctxC6 "Steve".data "Elite".data).memberAfter = ctxC6.targetMember ∧
    (autoMc ctxC6 "Steve".data "Elite".data).addRolesCalled = false := by
  have h := c6_bridge_failure_surfaced_no_mirroring ctxC6
    "Steve".data "Elite".data rfl rfl
  exact ⟨h.1, h.2.2.2.1, h.2.2.2.2.1⟩


/-! ### The DM throttle (`events/on_members_join.py`) and claim C8

`_safe_dm` is embedded as a timed state machine over the event-loop clock
(`ℚ` seconds).  The mutex makes the lock-protected section sequential, so a
run of several joins is modelled as a sequential fold; the oracle supplies
each attempt's outcome and (non-negative) send duration.  `asyncio.sleep(w)`
advances the clock by `w`; the Python `for attempt in range(1,
DM_MAX_RETRIES + 2)` loop becomes fuel-bounded structural recursion with the
same attempt counter. -/

def DM_INTERVAL : ℚ := 12 / 10

def DM_BACKOFF_40003 : ℚ := 3

def DM_MAX_RETRIES : ℕ := 2

inductive DmOutcome where
  | success
  | forbidden
  | http (code : ℕ)
deriving Repr, DecidableEq

structure DmState where
  t : ℚ
  lastTs : ℚ
deriving Repr, DecidableEq

/-- One send attempt as recorded in a trace: the time `member.send` was
entered (the dispatch time) and its outcome. -/
structure DmEvent where
  tSend : ℚ
  outcome : DmOutcome
deriving Repr, DecidableEq

/-- The body of `_safe_dm`'s retry loop.  Per iteration: read the clock,
wait out `max 0 (_LAST_DM_TS + DM_INTERVAL - now)`, send; on success stamp
`_LAST_DM_TS` with the completion time and return `True`; on `Forbidden`
return `False`; on HTTP 40003 within the retry budget stamp
`_LAST_DM_TS = now + DM_BACKOFF_40003`, sleep the backoff and continue; on
any other HTTP error return `False`.  Exhausting the loop returns
`False`. -/
def safeDmLoop (oracle : ℕ → DmOutcome × ℚ) :
    ℕ → ℕ → DmState → Bool × DmState × List DmEvent
  | 0, _, st => (false, st, [])
  | fuel + 1, attempt, st =>
    let o := oracle attempt
    let wait := max 0 (st.lastTs + DM_INTERVAL - st.t)
    let tSend := st.t + wait
    let tDone := tSend + o.2
    match o.1 with
    | .success => (true, ⟨tDone, tDone⟩, [⟨tSend, .success⟩])
    | .forbidden => (false, ⟨tDone, st.lastTs⟩, [⟨tSend, .forbidden⟩])
    | .http code =>
      if code = 40003 ∧ attempt ≤ DM_MAX_RETRIES then
        let res := safeDmLoop oracle fuel (attempt + 1)
          ⟨tDone + DM_BACKOFF_40003, tDone + DM_BACKOFF_40003⟩
        (res.1, res.2.1, ⟨tSend, .http code⟩ :: res.2.2)
      else
        (false, ⟨tDone, st.lastTs⟩, [⟨tSend, .http code⟩])

def safeDm (oracle : ℕ → DmOutcome × ℚ) (st : DmState) :
    Bool × DmState × List DmEvent :=
  safeDmLoop oracle (DM_MAX_RETRIES + 1) 1 st

/-- Sequential run of `_safe_dm` for a list of joining members (the lock
serializes all dispatches through the shared `_LAST_DM_TS`). -/
def runJoins (oracles : List (ℕ → DmOutcome × ℚ)) (st : DmState) :
    DmState × List DmEvent :=
  match oracles with
  | [] => (st, [])
  | o :: os =>
    let r := safeDm o st
    let rest := runJoins os r.2.1
    (rest.1, r.2.2 ++ rest.2)

/-- Spacing property the code actually enforces: an attempt directly
following a successful dispatch starts at least `DM_INTERVAL` later. -/
def spacedAfterSuccess : List DmEvent → Prop
  | e1 :: e2 :: rest =>
    (e1.outcome = .success → e1.tSend + DM_INTERVAL ≤ e2.tSend) ∧
    spacedAfterSuccess (e2 :: rest)
  | _ => True

/-- Spacing property claimed by the specification: all successive attempts
are at least `DM_INTERVAL` apart. -/
def spacedAllB : List DmEvent → Bool
  | e1 :: e2 :: rest =>
    decide (e1.tSend + DM_INTERVAL ≤ e2.tSend) && spacedAllB (e2 :: rest)
  | _ => true

structure JoinCtx where
  oracle : ℕ → DmOutcome × ℚ
  verifChannel : Bool
  logChannel : Bool
  systemChannel : Bool
  fallbackSendOk : Bool

inductive JoinOutcome where
  | dmDelivered
  | publicWelcome (posted : Bool)
  | silent
deriving Repr, DecidableEq

/-- `on_member_join`: try the DM; on failure fall back to the first
available public channel (verification, then log, then system — collapsed
here to their disjunction since the claim only concerns existence), with
the fallback send wrapped in `except Exception: pass` (a failed post is
swallowed, recorded as `posted := false`). -/
def onMemberJoin (c : JoinCtx) (st : DmState) :
    JoinOutcome × DmState × List DmEvent :=
  let r := safeDm c.oracle st
  if r.1 then (.dmDelivered, r.2.1, r.2.2)
  else if c.verifChannel || c.logChannel || c.systemChannel then
    (.publicWelcome c.fallbackSendOk, r.2.1, r.2.2)
  else (.silent, r.2.1, r.2.2)


theorem safeDmLoop_len (oracle : ℕ → DmOutcome × ℚ) :
    ∀ (fuel attempt : ℕ) (st : DmState),
      (safeDmLoop oracle fuel attempt st).2.2.length ≤ fuel := by
  intro fuel
  induction fuel with
  | zero => intro attempt st; simp [safeDmLoop]
  | succ fuel ih =>
    intro attempt st
    rw [safeDmLoop]
    rcases ho : (oracle attempt).1 with _ | _ | code
    · simp [ho]
    · simp [ho]
    · simp only [ho]
      by_cases hc : code = 40003 ∧ attempt ≤ DM_MAX_RETRIES
      · simp only [if_pos hc, List.length_cons]
        have := ih (attempt + 1)
          ⟨(st.t + max 0 (st.lastTs + DM_INTERVAL - st.t) + (oracle attempt).2)
              + DM_BACKOFF_40003,
            (st.t + max 0 (st.lastTs + DM_INTERVAL - st.t) + (oracle attempt).2)
              + DM_BACKOFF_40003⟩
        omega
      · simp [if_neg hc]

theorem safeDmLoop_spec (oracle : ℕ → DmOutcome × ℚ)
    (hdur : ∀ n, 0 ≤ (oracle n).2) :
    ∀ (fuel attempt : ℕ) (st : DmState),
      (safeDmLoop oracle fuel attempt st).2.2.length ≤ fuel ∧
      (∀ e ∈ (safeDmLoop oracle fuel attempt st).2.2,
        st.lastTs + DM_INTERVAL ≤ e.tSend) ∧
      spacedAfterSuccess (safeDmLoop oracle fuel attempt st).2.2 ∧
      st.lastTs ≤ (safeDmLoop oracle fuel attempt st).2.1.lastTs ∧
      (∀ e ∈ (safeDmLoop oracle fuel attempt st).2.2, e.outcome = .success →
        e.tSend ≤ (safeDmLoop oracle fuel attempt st).2.1.lastTs) := by
  intro fuel
  induction fuel with
  | zero =>
    intro attempt st
    simp [safeDmLoop, spacedAfterSuccess]
  | succ fuel ih =>
    intro attempt st
    have hint : (0 : ℚ) < DM_INTERVAL := by norm_num [DM_INTERVAL]
    have hback : (0 : ℚ) ≤ DM_BACKOFF_40003 := by norm_num [DM_BACKOFF_40003]
    have hd := hdur attempt
    set wait := max 0 (st.lastTs + DM_INTERVAL - st.t) with hwait
    set tSend := st.t + wait with htSend
    set tDone := tSend + (oracle attempt).2 with htDone
    have hsend : st.lastTs + DM_INTERVAL ≤ tSend := by
      have : st.lastTs + DM_INTERVAL - st.t ≤ wait := le_max_right _ _
      rw [htSend]
      linarith
    have hdone : tSend ≤ tDone := by
      rw [htDone]
      linarith
    rcases ho : (oracle attempt).1 with _ | _ | code
    · -- success
      rw [safeDmLoop]
      simp only [ho, ← hwait, ← htSend, ← htDone]
      refine ⟨by simp, by simp [hsend], by simp [spacedAfterSuccess], ?_, ?_⟩
      · show st.lastTs ≤ tDone
        linarith
      · intro e he _
        simp at he
        rw [he]
        simpa using hdone
    · -- forbidden
      rw [safeDmLoop]
      simp only [ho, ← hwait, ← htSend, ← htDone]
      refine ⟨by simp, by simp [hsend], by simp [spacedAfterSuccess], le_refl _, ?_⟩
      intro e he hsucc
      simp at he
      rw [he] at hsucc
      simp at hsucc
    · -- http code
      by_cases hc : code = 40003 ∧ attempt ≤ DM_MAX_RETRIES
      · rw [safeDmLoop]
        simp only [ho, ← hwait, ← htSend, ← htDone, if_pos hc]
        set st2 : DmState := ⟨tDone + DM_BACKOFF_40003, tDone + DM_BACKOFF_40003⟩
          with hst2
        obtain ⟨ih1, ih2, ih3, ih4, ih5⟩ := ih (attempt + 1) st2
        have hst2last : st.lastTs ≤ st2.lastTs := by
          rw [hst2]
          simp only []
          linarith
        refine ⟨?_, ?_, ?_, ?_, ?_⟩
        · simpa using ih1
        · intro e he
          simp only [List.mem_cons] at he
          rcases he with rfl | he
          · exact hsend
          · have := ih2 e he
            have h2 : st2.lastTs = tDone + DM_BACKOFF_40003 := by rw [hst2]
            rw [h2] at this
            linarith
        · rcases hrec : (safeDmLoop oracle fuel (attempt + 1) st2).2.2 with _ | ⟨e2, rest2⟩
          · simp [spacedAfterSuccess]
          · refine ⟨fun hsucc => by simp at hsucc, ?_⟩
            have h3 := ih3
            rw [hrec] at h3
            exact h3
        · calc st.lastTs ≤ st2.lastTs := hst2last
            _ ≤ _ := ih4
        · intro e he hsucc
          simp only [List.mem_cons] at he
          rcases he with rfl | he
          · simp at hsucc
          · exact ih5 e he hsucc
      · rw [safeDmLoop]
        simp only [ho, ← hwait, ← htSend, ← htDone, if_neg hc]
        refine ⟨by simp, by simp [hsend], by simp [spacedAfterSuccess], le_refl _, ?_⟩
        intro e he hsucc
        simp at he
        rw [he] at hsucc
        simp at hsucc

theorem spacedAfterSuccess_append (xs : List DmEvent) :
    ∀ (ys : List DmEvent), spacedAfterSuccess xs → spacedAfterSuccess ys →
    (∀ e e', xs.getLast? = some e → ys.head? = some e' →
      e.outcome = .success → e.tSend + DM_INTERVAL ≤ e'.tSend) →
    spacedAfterSuccess (xs ++ ys) := by
  induction xs with
  | nil =>
    intro ys _ hys _
    simpa using hys
  | cons e1 xs' ih =>
    intro ys hxs hys hb
    rcases xs' with _ | ⟨e2, xs''⟩
    · rcases ys with _ | ⟨f1, ys'⟩
      · simpa using hxs
      · exact ⟨fun hs => hb e1 f1 rfl rfl hs, hys⟩
    · refine ⟨hxs.1, ?_⟩
      exact ih ys hxs.2 hys
        (fun e e' hl hh hs => hb e e' (by rw [List.getLast?_cons_cons]; exact hl) hh hs)

theorem runJoins_spec :
    ∀ (oracles : List (ℕ → DmOutcome × ℚ)),
      (∀ o ∈ oracles, ∀ n, 0 ≤ (o n).2) →
      ∀ st : DmState,
      (∀ e ∈ (runJoins oracles st).2, st.lastTs + DM_INTERVAL ≤ e.tSend) ∧
      spacedAfterSuccess (runJoins oracles st).2 ∧
      st.lastTs ≤ (runJoins oracles st).1.lastTs ∧
      (∀ e ∈ (runJoins oracles st).2, e.outcome = .success →
        e.tSend ≤ (runJoins oracles st).1.lastTs) := by
  intro oracles
  induction oracles with
  | nil =>
    intro _ st
    simp [runJoins, spacedAfterSuccess]
  | cons o os ih =>
    intro hdur st
    have hdo : ∀ n, 0 ≤ (o n).2 := hdur o (List.mem_cons_self _ _)
    have hos : ∀ o' ∈ os, ∀ n, 0 ≤ (o' n).2 :=
      fun o' h => hdur o' (List.mem_cons_of_mem _ h)
    obtain ⟨-, s2, s3, s4, s5⟩ :=
      safeDmLoop_spec o hdo (DM_MAX_RETRIES + 1) 1 st
    have heq : safeDmLoop o (DM_MAX_RETRIES + 1) 1 st = safeDm o st := rfl
    rw [heq] at s2 s3 s4 s5
    obtain ⟨j2, j3, j4, j5⟩ := ih hos (safeDm o st).2.1
    have hrj : runJoins (o :: os) st
        = ((runJoins os (safeDm o st).2.1).1,
           (safeDm o st).2.2 ++ (runJoins os (safeDm o st).2.1).2) := by
      rw [runJoins]
    rw [hrj]
    refine ⟨?_, ?_, ?_, ?_⟩
    · intro e he
      rcases List.mem_append.mp he with h | h
      · exact s2 e h
      · calc st.lastTs + DM_INTERVAL
            ≤ (safeDm o st).2.1.lastTs + DM_INTERVAL := by
              have := s4
              linarith
          _ ≤ e.tSend := j2 e h
    · refine spacedAfterSuccess_append _ _ s3 j3 ?_
      intro e e' hl hh hs
      have hmem : e ∈ (safeDm o st).2.2 := List.mem_of_mem_getLast? hl
      have hmem' : e' ∈ (runJoins os (safeDm o st).2.1).2 :=
        List.mem_of_mem_head? hh
      have h1 : e.tSend ≤ (safeDm o st).2.1.lastTs := s5 e hmem hs
      have h2 : (safeDm o st).2.1.lastTs + DM_INTERVAL ≤ e'.tSend := j2 e' hmem'
      linarith
    · calc st.lastTs ≤ (safeDm o st).2.1.lastTs := s4
        _ ≤ _ := j4
    · intro e he hs
      rcases List.mem_append.mp he with h | h
      · calc e.tSend ≤ (safeDm o st).2.1.lastTs := s5 e h hs
          _ ≤ _ := j4
      · exact j5 e h hs

def oracleForbidden : ℕ → DmOutcome × ℚ := fun _ => (.forbidden, 0)

def oracleSuccess : ℕ → DmOutcome × ℚ := fun _ => (.success, 0)

def oracle40003 : ℕ → DmOutcome × ℚ := fun _ => (.http 40003, 0)

/-- Counterexample to C8 as stated: a `Forbidden` DM failure neither
updates `_LAST_DM_TS` nor delays the next member's dispatch, so two
successive dispatch attempts can start at the same instant — successive
attempts are not all spaced by the minimum interval. -/
theorem c8_counterexample_unthrottled_after_failure :
    (runJoins [oracleForbidden, oracleSuccess] ⟨10, 0⟩).2
      = [⟨10, .forbidden⟩, ⟨10, .success⟩] ∧
    spacedAllB (runJoins [oracleForbidden, oracleSuccess] ⟨10, 0⟩).2 = false := by
  have hm : (0 : ℚ) ⊔ (DM_INTERVAL - 10) = 0 := by
    rw [sup_eq_left]
    norm_num [DM_INTERVAL]
  have h1 : runJoins [oracleForbidden, oracleSuccess] ⟨10, 0⟩
      = (⟨10, 10⟩, [⟨10, .forbidden⟩, ⟨10, .success⟩]) := by
    simp [runJoins, safeDm, safeDmLoop, oracleForbidden, oracleSuccess, hm]
  rw [h1]
  refine ⟨rfl, ?_⟩
  have hlt : ¬ ((10 : ℚ) + DM_INTERVAL ≤ 10) := by norm_num [DM_INTERVAL]
  simp [spacedAllB, hlt]

/-- C8 (amended): in any sequential run of DM notifications, an attempt
directly following a successful dispatch starts at least the configured
minimum interval after it (the throttle timestamp is only advanced by
successes and 40003 backoffs, so failed attempts impose no spacing — see
the counterexample); each member's `_safe_dm` makes at most
`DM_MAX_RETRIES + 1` send attempts (at most `DM_MAX_RETRIES` retries); and
an oracle that always answers HTTP 40003 exhausts the bounded retries,
returns `False`, and `on_member_join` falls back to a public channel
message when any channel exists — never an unhandled failure (the model is
a total function and the fallback send's own failure is swallowed). -/
theorem c8_throttle_amended (oracles : List (ℕ → DmOutcome × ℚ)) (st : DmState)
    (hdur : ∀ o ∈ oracles, ∀ n, 0 ≤ (o n).2) :
    spacedAfterSuccess (runJoins oracles st).2 ∧
    (∀ (o : ℕ → DmOutcome × ℚ) (st2 : DmState),
      (safeDm o st2).2.2.length ≤ DM_MAX_RETRIES + 1) ∧
    (∀ (c : JoinCtx) (st3 : DmState), (∀ n, (c.oracle n).1 = .http 40003) →
      (safeDm c.oracle st3).1 = false ∧
      (onMemberJoin c st3).1
        = (if c.verifChannel || c.logChannel || c.systemChannel
          then .publicWelcome c.fallbackSendOk else .silent)) := by
  refine ⟨(runJoins_spec oracles hdur st).2.1, ?_, ?_⟩
  · intro o st2
    exact safeDmLoop_len o (DM_MAX_RETRIES + 1) 1 st2
  · intro c st3 h40
    have hfalse : (safeDm c.oracle st3).1 = false := by
      rw [safeDm, DM_MAX_RETRIES]
      rw [safeDmLoop]
      simp only [h40 1]
      rw [if_pos (by norm_num [DM_MAX_RETRIES])]
      rw [safeDmLoop]
      simp only [h40 2]
      rw [if_pos (by norm_num [DM_MAX_RETRIES])]
      rw [safeDmLoop]
      simp only [h40 3]
      rw [if_neg (by norm_num [DM_MAX_RETRIES])]
    refine ⟨hfalse, ?_⟩
    rw [onMemberJoin]
    simp only [hfalse]
    simp only [Bool.false_eq_true, if_false]
    split <;> simp_all

/-- Witness for C8 at concrete oracles: a successful single dispatch and an
always-40003 member whose notification ends in the public fallback. -/
theorem c8_witness :
    spacedAfterSuccess (runJoins [oracleSuccess] ⟨0, 0⟩).2 ∧
    (safeDm oracleSuccess ⟨0, 0⟩).2.2.length ≤ DM_MAX_RETRIES + 1 ∧
    (safeDm oracle40003 ⟨0, 0⟩).1 = false ∧
    (onMemberJoin ⟨oracle40003, true, false, false, true⟩ ⟨0, 0⟩).1
      = .publicWelcome true := by
  have h := c8_throttle_amended [oracleSuccess] ⟨0, 0⟩ (by
    intro o ho n
    simp only [List.mem_singleton] at ho
    rw [ho]
    simp [oracleSuccess])
  have h3 := h.2.2 ⟨oracle40003, true, false, false, true⟩ ⟨0, 0⟩ (fun _ => rfl)
  exact ⟨h.1, h.2.1 oracleSuccess ⟨0, 0⟩, h3.1, by simpa using h3.2⟩


/-! ### Promotion-mode normalization (`commands/getroles.py`, module load)
and claim C10 -/

def VALID_MODES : List String := ["discord-only", "auto-mc"]

def strStrip (s : String) : String := ⟨pyStrip s.data⟩

def strLower (s : String) : String := ⟨pyLower s.data⟩

/-- Python `x or default`: the default replaces `None` and any falsy value —
for strings, the empty string. -/
def pyOrDefault (v : Option String) (dflt : String) : String :=
  match v with
  | none => dflt
  | some s => if s = "" then dflt else s

/-- Module-load computation of `PROMOTION_MODE`:
`(os.getenv("PROMOTION_MODE") or "discord-only").strip().lower()` followed
by `if PROMOTION_MODE not in VALID_MODES: PROMOTION_MODE = "discord-only"`. -/
def effectiveMode (env : Option String) : String :=
  let m := strLower (strStrip (pyOrDefault env "discord-only"))
  if m ∈ VALID_MODES then m else "discord-only"

/-- The three-way `mode` dispatch at the end of `promote`. -/
inductive ModeBranch where
  | discordOnly
  | autoMc
  | unknown
deriving Repr, DecidableEq

def modeBranch (m : String) : ModeBranch :=
  if m = "discord-only" then .discordOnly
  else if m = "auto-mc" then .autoMc
  else .unknown

/-- Counterexample to C10 as stated: the raw environment value "AUTO-MC"
lies outside {"discord-only", "auto-mc"}, yet the effective mode is
"auto-mc", not "discord-only" — strip/lower-case normalization runs before
the membership check, so only values whose normalized form is invalid fall
back to the default. -/
theorem c10_counterexample_case_normalization :
    ("AUTO-MC" ∈ VALID_MODES) = False ∧
    effectiveMode (some "AUTO-MC") = "auto-mc" ∧
    ("auto-mc" : String) ≠ "discord-only" := by
  refine ⟨by simp [VALID_MODES], by decide, by decide⟩

/-- C10 (amended): for every value of the PROMOTION_MODE environment
variable — including unset and empty — the effective mode is a member of
{"discord-only", "auto-mc"}; whenever the stripped, lower-cased value
(after the falsy default) is outside that set the effective mode is
silently "discord-only"; and consequently the promote command's "Unknown
promotion mode" branch is unreachable. -/
theorem c10_mode_normalization_amended (env : Option String) :
    effectiveMode env ∈ VALID_MODES ∧
    (strLower (strStrip (pyOrDefault env "discord-only")) ∉ VALID_MODES →
      effectiveMode env = "discord-only") ∧
    modeBranch (effectiveMode env) ≠ .unknown := by
  by_cases h : strLower (strStrip (pyOrDefault env "discord-only")) ∈ VALID_MODES
  · refine ⟨?_, fun hc => absurd h hc, ?_⟩
    · simp only [effectiveMode, if_pos h]
      exact h
    · simp only [effectiveMode, if_pos h]
      simp only [VALID_MODES, List.mem_cons, List.mem_singleton,
        List.not_mem_nil, or_false] at h
      rcases h with h | h <;> simp [modeBranch, h]
  · refine ⟨?_, fun _ => ?_, ?_⟩ <;> simp only [effectiveMode, if_neg h]
    · simp [VALID_MODES]
    · simp [modeBranch]

/-- Witness for C10: an invalid mode value falls back to discord-only and
the unknown branch is not taken. -/
theorem c10_witness :
    effectiveMode (some "bogus") = "discord-only" ∧
    modeBranch (effectiveMode (some "bogus")) ≠ .unknown :=
  ⟨(c10_mode_normalization_amended (some "bogus")).2.1 (by decide),
   (c10_mode_normalization_amended (some "bogus")).2.2⟩

end SBM
